import Mathlib

set_option autoImplicit false
set_option maxRecDepth 100000

/-!
Shallow embedding of the mac80211-facing control-plane glue of the mt76
driver (src/main.c): the WCID slot allocator, the key-binding state
machine of mt76_set_key, interface-index derivation in
mt76_add_interface, the beacon-configuration trace of
mt76_bss_info_changed, and the RX gating of mt76_rx.

The bitmap geometry (word width and word count of dev->wcid_mask) comes
from the missing header mt76.h; per the spec it covers bit positions
0..255 with the 248..255 range reserved, which we model as eight 32-bit
words matching the kernel 32-bit ffs primitive used by the scan loop.
-/

/-- Bounded linear search for the lowest bit position at or above a start
position satisfying a predicate; used to model the kernel ffs primitive. -/
def findBit (p : Nat → Bool) : Nat → Nat → Option Nat
  | _, 0 => none
  | s, fuel + 1 => if p s then some s else findBit p (s + 1) fuel

/-- Model of the external kernel ffs primitive on one 32-bit word:
one plus the index of the least significant set bit, or 0 if none. -/
def ffs32 (n : Nat) : Nat :=
  match findBit n.testBit 0 32 with
  | some b => b + 1
  | none => 0

/-- Bitwise complement of a value seen as one 32-bit word, as the C
expression ~w computes on an unsigned 32-bit quantity. -/
def compl32 (w : Nat) : Nat :=
  (w % 2 ^ 32) ^^^ (2 ^ 32 - 1)

/-- The scan loop of mt76_wcid_alloc over the words of dev->wcid_mask:
walks the words lowest-first, and in the first word whose complement has a
set bit (i.e. the first word with a zero bit) sets that bit and stops.
Returns the word position, the bit offset, and the updated word list,
or none when every word is full. -/
def allocAux : List Nat → Option (Nat × Nat × List Nat)
  | [] => none
  | w :: ws =>
    let f := ffs32 (compl32 w)
    if f = 0 then
      match allocAux ws with
      | none => none
      | some (i, b, ws2) => some (i + 1, b, w :: ws2)
    else
      some (0, f - 1, (w ||| 2 ^ (f - 1)) :: ws)

/-- mt76_wcid_alloc (src/main.c lines 191-211): scans the bitmap, marks
the lowest zero bit, computes idx = word * 32 + bit, and returns -1 when
the computed idx exceeds 247.  The bit is marked before the range check,
exactly as in the source. -/
def mt76_wcid_alloc (words : List Nat) : Int × List Nat :=
  match allocAux words with
  | none => (-1, words)
  | some (i, b, ws2) =>
    let idx := i * 32 + b
    if idx > 247 then (-1, ws2) else ((idx : Nat), ws2)

/-- The bitmap release step of mt76_sta_remove (src/main.c line 261):
wcid_mask[idx / BITS_PER_LONG] &= ~BIT(idx % BITS_PER_LONG). -/
def mt76_wcid_release (words : List Nat) (idx : Nat) : List Nat :=
  words.set (idx / 32) (words.getD (idx / 32) 0 &&& compl32 (2 ^ (idx % 32)))

/-- Bit at global position j of the packed bitmap. -/
def maskBit (words : List Nat) (j : Nat) : Bool :=
  (words.getD (j / 32) 0).testBit (j % 32)

/-- One operation on the WCID table: an allocate (from mt76_sta_add) or a
release of a previously returned index (from mt76_sta_remove). -/
inductive WcidOp where
  | alloc : WcidOp
  | release : Nat → WcidOp
deriving DecidableEq

/-- Allocator state: the packed allocation bitmap together with the
indices returned by allocate and not yet released. -/
structure AllocState where
  mask : List Nat
  owned : List Nat
deriving DecidableEq

/-- Effect of one operation on the allocator state: allocate runs
mt76_wcid_alloc and records the returned index when non-negative; release
clears the bitmap bit and drops the index from the owned list. -/
def stepOp (s : AllocState) : WcidOp → AllocState
  | WcidOp.alloc =>
    let r := mt76_wcid_alloc s.mask
    { mask := r.2, owned := if r.1 < 0 then s.owned else r.1.toNat :: s.owned }
  | WcidOp.release i =>
    { mask := mt76_wcid_release s.mask i, owned := s.owned.erase i }

/-- Run a sequence of allocator operations. -/
def execOps (s : AllocState) (ops : List WcidOp) : AllocState :=
  ops.foldl stepOp s

/-- Initial allocator state: empty bitmap (eight zero words), nothing
allocated. -/
def initState : AllocState :=
  { mask := [0, 0, 0, 0, 0, 0, 0, 0], owned := [] }

/-- A sequence of operations is valid when every release targets an index
currently held, matching the lifecycle contract that mt76_sta_remove
releases exactly the index of a previously added station. -/
def validOps : AllocState → List WcidOp → Bool
  | _, [] => true
  | s, WcidOp.alloc :: ops => validOps (stepOp s WcidOp.alloc) ops
  | s, WcidOp.release i :: ops =>
    decide (i ∈ s.owned) && validOps (stepOp s (WcidOp.release i)) ops

/-- Allocator invariant: the bitmap has its fixed eight-word shape, the
held indices are distinct, a position at most 247 is held exactly when
its bitmap bit is set, and every held index is at most 247. -/
def invHolds (s : AllocState) : Prop :=
  s.mask.length = 8 ∧ s.owned.Nodup ∧
  (∀ j, j ≤ 247 → (j ∈ s.owned ↔ maskBit s.mask j = true)) ∧
  (∀ j, j ∈ s.owned → j ≤ 247)

instance (s : AllocState) : Decidable (invHolds s) := by
  unfold invHolds; infer_instance

/-- A WCID slot as the driver sees it: the hardware table index and the
currently bound hardware key index (-1 when no key is bound). -/
structure MtWcid where
  idx : Nat
  hw_key_idx : Int
deriving DecidableEq

/-- A virtual interface record: the bss index and the embedded group
WCID slot. -/
structure MtVif where
  idx : Nat
  group_wcid : MtWcid
deriving DecidableEq

/-- mt76_add_interface (src/main.c lines 56-88) restricted to the fields
it computes: derives the bss index from the first bytes of the device MAC
address and the interface address and from the interface role, and fills
in the embedded group WCID slot.  Returns the record together with the C
return value. -/
def mt76_add_interface (macaddr0 addr0 : Nat) (isStation : Bool) : MtVif × Int :=
  let idx0 := if addr0.testBit 1 then 1 + (((macaddr0 ^^^ addr0) >>> 2) &&& 7) else 0
  let idx := if isStation then idx0 + 8 else idx0
  ({ idx := idx, group_wcid := { idx := 254 - idx, hw_key_idx := -1 } }, 0)

/-- Interface-index derivation exactly as the spec words it: if the
locally-administered bit of the interface address is set the index is
1 + ((macaddr[0] ^ addr[0]) >> 2 & 7), otherwise 0, and a station-role
interface adds a fixed offset of 8. -/
def specInterfaceIdx (macaddr0 addr0 : Nat) (isStation : Bool) : Nat :=
  (if addr0.testBit 1 then 1 + (((macaddr0 ^^^ addr0) >>> 2) &&& 7) else 0) +
    (if isStation then 8 else 0)

/-- The fields of struct ieee80211_key_conf that mt76_set_key reads or
writes: the key index chosen by mac80211 and the hw_key_idx reported back
to mac80211. -/
structure KeyConf where
  keyidx : Nat
  hw_key_idx : Nat
deriving DecidableEq

/-- One call into the hardware layer made by mt76_set_key: either the
per-WCID key programming mt76_mac_wcid_set_key or the per-interface
shared-key table programming mt76_mac_shared_key_setup.  A none key
means the C code passed a NULL key (clear the entry). -/
inductive HwCall where
  | wcidSetKey : Nat → Option KeyConf → HwCall
  | sharedKeySetup : Nat → Nat → Option KeyConf → HwCall
deriving DecidableEq

/-- Result of mt76_set_key: the C return value, the post state of the
WCID slot operated on, the post state of the key conf, and the hardware
calls issued in order. -/
structure SetKeyResult where
  ret : Int
  wcid : MtWcid
  key : KeyConf
  calls : List HwCall
deriving DecidableEq

/-- mt76_set_key (src/main.c lines 274-307).  fWcid and fShared are the
return-value oracles of the external hardware-apply calls
mt76_mac_wcid_set_key and mt76_mac_shared_key_setup.  cmdSet is true for
SET_KEY and false for DISABLE_KEY; staWcid is the station slot when the
request targets a station, none for a group key (the group slot of the
interface is used instead). -/
def mt76_set_key (fWcid : Nat → Option KeyConf → Int)
    (fShared : Nat → Nat → Option KeyConf → Int)
    (cmdSet : Bool) (mvifIdx : Nat) (groupWcid : MtWcid)
    (staWcid : Option MtWcid) (key0 : KeyConf) : SetKeyResult :=
  let wcid := staWcid.getD groupWcid
  let idx := key0.keyidx
  let key1 := if cmdSet then { key0 with hw_key_idx := wcid.idx } else key0
  let wcid1 :=
    if cmdSet then { wcid with hw_key_idx := (idx : Int) }
    else if wcid.hw_key_idx = (idx : Int) then { wcid with hw_key_idx := -1 }
    else wcid
  let keyArg : Option KeyConf := if cmdSet then some key1 else none
  match staWcid with
  | none =>
    if keyArg.isSome || wcid1.hw_key_idx = (idx : Int) then
      let r := fWcid wcid1.idx keyArg
      if r ≠ 0 then
        { ret := r, wcid := wcid1, key := key1,
          calls := [HwCall.wcidSetKey wcid1.idx keyArg] }
      else
        { ret := fShared mvifIdx idx keyArg, wcid := wcid1, key := key1,
          calls := [HwCall.wcidSetKey wcid1.idx keyArg,
                    HwCall.sharedKeySetup mvifIdx idx keyArg] }
    else
      { ret := fShared mvifIdx idx keyArg, wcid := wcid1, key := key1,
        calls := [HwCall.sharedKeySetup mvifIdx idx keyArg] }
  | some sw =>
    { ret := fWcid sw.idx keyArg, wcid := wcid1, key := key1,
      calls := [HwCall.wcidSetKey sw.idx keyArg] }

/-- Observable events of mt76_bss_info_changed, in program order. -/
inductive BssEvent where
  | setBssid : Nat → BssEvent
  | rmwBeaconIntvl : Nat → BssEvent
  | taskletDisable : BssEvent
  | setBeaconEnable : Nat → Bool → BssEvent
  | taskletEnable : BssEvent
  | rmwSlotTime : Nat → BssEvent
deriving DecidableEq

/-- mac80211 change-flag masks used by mt76_bss_info_changed; bit
positions from the external mac80211 header of this kernel generation. -/
def BSS_CHANGED_ERP_SLOT : Nat := 2 ^ 3

def BSS_CHANGED_BEACON_INT : Nat := 2 ^ 6

def BSS_CHANGED_BSSID : Nat := 2 ^ 7

def BSS_CHANGED_BEACON_ENABLED : Nat := 2 ^ 9

/-- mt76_bss_info_changed (src/main.c lines 158-189) as the ordered trace
of register updates and tasklet disable/enable events it performs for a
given change mask. -/
def mt76_bss_info_changed (mvifIdx beaconInt : Nat)
    (enableBeacon useShortSlot : Bool) (changed : Nat) : List BssEvent :=
  (if changed &&& BSS_CHANGED_BSSID ≠ 0 then [BssEvent.setBssid mvifIdx] else []) ++
  (if changed &&& BSS_CHANGED_BEACON_INT ≠ 0 then
    [BssEvent.rmwBeaconIntvl (beaconInt <<< 4)] else []) ++
  (if changed &&& BSS_CHANGED_BEACON_ENABLED ≠ 0 then
    [BssEvent.taskletDisable, BssEvent.setBeaconEnable mvifIdx enableBeacon,
     BssEvent.taskletEnable] else []) ++
  (if changed &&& BSS_CHANGED_ERP_SLOT ≠ 0 then
    [BssEvent.rmwSlotTime (if useShortSlot then 9 else 20)] else [])

/-- Checks that every beacon-enable register update in a trace is
immediately preceded by a tasklet disable and immediately followed by a
tasklet enable, i.e. the pre-TBTT tasklet is paused for the whole
duration of that register update. -/
def beaconUpdatesBracketed : List BssEvent → Bool
  | [] => true
  | BssEvent.taskletDisable :: BssEvent.setBeaconEnable _ _ ::
      BssEvent.taskletEnable :: rest => beaconUpdatesBracketed rest
  | BssEvent.setBeaconEnable _ _ :: _ => false
  | _ :: rest => beaconUpdatesBracketed rest

/-- Fate of an inbound frame in mt76_rx. -/
inductive RxAction where
  | deliver : Nat → RxAction
  | free : Nat → RxAction
deriving DecidableEq

/-- mt76_rx (src/main.c lines 457-465): when the RUNNING state bit is
clear the frame buffer is freed, otherwise the frame is handed to
ieee80211_rx. -/
def mt76_rx (running : Bool) (skb : Nat) : RxAction :=
  if !running then RxAction.free skb else RxAction.deliver skb

/-! Auxiliary lemmas about the bit-search primitive and the packed bitmap. -/

theorem findBit_some_spec (p : Nat → Bool) :
    ∀ fuel s b, findBit p s fuel = some b →
      p b = true ∧ s ≤ b ∧ b < s + fuel ∧ ∀ j, s ≤ j → j < b → p j = false := by
  intro fuel
  induction fuel with
  | zero => intro s b h; simp [findBit] at h
  | succ n ih =>
    intro s b h
    simp only [findBit] at h
    by_cases hp : p s
    · rw [if_pos hp] at h
      injection h with h
      subst h
      exact ⟨hp, Nat.le_refl s, by omega, fun j h1 h2 => absurd h2 (by omega)⟩
    · rw [if_neg hp] at h
      obtain ⟨pb, h1, h2, h3⟩ := ih (s + 1) b h
      refine ⟨pb, by omega, by omega, ?_⟩
      intro j hj1 hj2
      rcases Nat.eq_or_lt_of_le hj1 with he | hl
      · have hps : p s = false := by
          revert hp; cases p s <;> simp
        rw [← he]; exact hps
      · exact h3 j hl hj2

theorem findBit_none_spec (p : Nat → Bool) :
    ∀ fuel s, findBit p s fuel = none →
      ∀ j, s ≤ j → j < s + fuel → p j = false := by
  intro fuel
  induction fuel with
  | zero => intro s _ j h1 h2; exact absurd h2 (by omega)
  | succ n ih =>
    intro s h j h1 h2
    simp only [findBit] at h
    by_cases hp : p s
    · rw [if_pos hp] at h; exact absurd h (by simp)
    · rw [if_neg hp] at h
      rcases Nat.eq_or_lt_of_le h1 with he | hl
      · have hps : p s = false := by
          revert hp; cases p s <;> simp
        rw [← he]; exact hps
      · exact ih (s + 1) h j hl (by omega)

theorem testBit_compl32 {w j : Nat} (h : j < 32) :
    (compl32 w).testBit j = !w.testBit j := by
  unfold compl32
  rw [Nat.testBit_xor, Nat.testBit_two_pow_sub_one, Nat.testBit_mod_two_pow]
  simp [h]

theorem ffs32_compl_zero {w : Nat} (h : ffs32 (compl32 w) = 0) :
    ∀ j, j < 32 → w.testBit j = true := by
  intro j hj
  unfold ffs32 at h
  cases hf : findBit (compl32 w).testBit 0 32 with
  | some b => rw [hf] at h; exact absurd h (by simp)
  | none =>
    have := findBit_none_spec (compl32 w).testBit 32 0 hf j (Nat.zero_le j) (by omega)
    rw [testBit_compl32 hj] at this
    revert this; cases w.testBit j <;> simp

theorem ffs32_compl_succ {w b : Nat} (h : ffs32 (compl32 w) = b + 1) :
    b < 32 ∧ w.testBit b = false ∧ ∀ j, j < b → w.testBit j = true := by
  unfold ffs32 at h
  cases hf : findBit (compl32 w).testBit 0 32 with
  | none => rw [hf] at h; exact absurd h (by simp)
  | some b' =>
    rw [hf] at h
    change b' + 1 = b + 1 at h
    have hb : b = b' := by omega
    subst hb
    obtain ⟨pb, _, hub, hall⟩ := findBit_some_spec (compl32 w).testBit 32 0 b hf
    have hb32 : b < 32 := by omega
    rw [testBit_compl32 hb32] at pb
    refine ⟨hb32, ?_, ?_⟩
    · revert pb; cases w.testBit b <;> simp
    · intro j hj
      have := hall j (Nat.zero_le j) hj
      rw [testBit_compl32 (by omega)] at this
      revert this; cases w.testBit j <;> simp

theorem getD_set_self : ∀ (ws : List Nat) (i x : Nat), i < ws.length →
    (ws.set i x).getD i 0 = x := by
  intro ws
  induction ws with
  | nil => intro i x h; simp at h
  | cons w t ih =>
    intro i x h
    cases i with
    | zero => rfl
    | succ i2 => exact ih i2 x (by simpa using h)

theorem getD_set_ne : ∀ (ws : List Nat) (i k x : Nat), i ≠ k →
    (ws.set i x).getD k 0 = ws.getD k 0 := by
  intro ws
  induction ws with
  | nil => intro i k x _; rfl
  | cons w t ih =>
    intro i k x h
    cases i with
    | zero =>
      cases k with
      | zero => exact absurd rfl h
      | succ k2 => rfl
    | succ i2 =>
      cases k with
      | zero => rfl
      | succ k2 => exact ih i2 k2 x (by omega)

theorem allocAux_none_spec : ∀ (ws : List Nat), allocAux ws = none →
    ∀ k, k < ws.length → ∀ j, j < 32 → (ws.getD k 0).testBit j = true := by
  intro ws
  induction ws with
  | nil => intro _ k hk; simp at hk
  | cons w t ih =>
    intro h k hk j hj
    simp only [allocAux] at h
    by_cases hf : ffs32 (compl32 w) = 0
    · rw [if_pos hf] at h
      cases hat : allocAux t with
      | none =>
        cases k with
        | zero => exact ffs32_compl_zero hf j hj
        | succ k2 => exact ih hat k2 (by simpa using hk) j hj
      | some x =>
        obtain ⟨i, b, ws2⟩ := x
        rw [hat] at h
        exact absurd h (by simp)
    · rw [if_neg hf] at h
      exact absurd h (by simp)

theorem allocAux_some_spec : ∀ (ws : List Nat) (i b : Nat) (ws2 : List Nat),
    allocAux ws = some (i, b, ws2) →
    i < ws.length ∧ b < 32 ∧ (ws.getD i 0).testBit b = false ∧
    (∀ k, k < i → ∀ j, j < 32 → (ws.getD k 0).testBit j = true) ∧
    (∀ j, j < b → (ws.getD i 0).testBit j = true) ∧
    ws2 = ws.set i (ws.getD i 0 ||| 2 ^ b) := by
  intro ws
  induction ws with
  | nil => intro i b ws2 h; simp [allocAux] at h
  | cons w t ih =>
    intro i b ws2 h
    simp only [allocAux] at h
    by_cases hf : ffs32 (compl32 w) = 0
    · rw [if_pos hf] at h
      cases hat : allocAux t with
      | none => rw [hat] at h; exact absurd h (by simp)
      | some x =>
        obtain ⟨i2, b2, ws3⟩ := x
        rw [hat] at h
        change some (i2 + 1, b2, w :: ws3) = some (i, b, ws2) at h
        injection h with h
        have hia : i2 + 1 = i := congrArg Prod.fst h
        have hrest := congrArg Prod.snd h
        have hba : b2 = b := congrArg Prod.fst hrest
        have hwa : w :: ws3 = ws2 := congrArg Prod.snd hrest
        subst hia hba hwa
        obtain ⟨l1, l2, l3, l4, l5, l6⟩ := ih i2 b2 ws3 hat
        refine ⟨by simp; omega, l2, l3, ?_, l5, ?_⟩
        · intro k hk j hj
          cases k with
          | zero => exact ffs32_compl_zero hf j hj
          | succ k2 => exact l4 k2 (by omega) j hj
        · rw [l6]; rfl
    · rw [if_neg hf] at h
      change some (0, ffs32 (compl32 w) - 1, (w ||| 2 ^ (ffs32 (compl32 w) - 1)) :: t)
          = some (i, b, ws2) at h
      injection h with h
      have hia : 0 = i := congrArg Prod.fst h
      have hrest := congrArg Prod.snd h
      have hba : ffs32 (compl32 w) - 1 = b := congrArg Prod.fst hrest
      have hwa : (w ||| 2 ^ (ffs32 (compl32 w) - 1)) :: t = ws2 := congrArg Prod.snd hrest
      subst hia
      obtain ⟨m, hm⟩ := Nat.exists_eq_succ_of_ne_zero hf
      have hmb : m = b := by omega
      subst hmb
      obtain ⟨p1, p2, p3⟩ := ffs32_compl_succ hm
      refine ⟨by simp, p1, p2, fun k hk => absurd hk (by omega), p3, ?_⟩
      rw [← hwa, hba]
      rfl

theorem maskBit_set_or {ws : List Nat} {i b : Nat} (hi : i < ws.length)
    (hb : b < 32) (j : Nat) :
    maskBit (ws.set i (ws.getD i 0 ||| 2 ^ b)) j
      = (maskBit ws j || decide (j = 32 * i + b)) := by
  unfold maskBit
  by_cases hw : j / 32 = i
  · have hw2 := hw
    rw [hw, getD_set_self ws i (ws.getD i 0 ||| 2 ^ b) hi]
    rw [Nat.testBit_or, Nat.testBit_two_pow]
    have hiff : (b = j % 32) ↔ (j = 32 * i + b) := by omega
    simp only [hiff]
  · rw [getD_set_ne ws i (j / 32) (ws.getD i 0 ||| 2 ^ b) (fun he => hw he.symm)]
    have hne : ¬(j = 32 * i + b) := by omega
    simp [hne]

theorem maskBit_release {ws : List Nat} {idx : Nat} (hlen : idx / 32 < ws.length)
    (j : Nat) :
    maskBit (mt76_wcid_release ws idx) j = (maskBit ws j && !decide (j = idx)) := by
  unfold mt76_wcid_release maskBit
  by_cases hw : j / 32 = idx / 32
  · have hw2 := hw
    rw [hw, getD_set_self ws (idx / 32) _ hlen]
    rw [Nat.testBit_and, testBit_compl32 (show j % 32 < 32 by omega),
      Nat.testBit_two_pow]
    have hiff : (idx % 32 = j % 32) ↔ (j = idx) := by omega
    simp only [hiff]
  · rw [getD_set_ne ws (idx / 32) (j / 32) _ (fun he => hw he.symm)]
    have hne : ¬(j = idx) := by omega
    simp [hne]

theorem alloc_cases {ws : List Nat} (hlen : ws.length = 8) :
    (mt76_wcid_alloc ws = (-1, ws) ∧ ∀ j, j < 256 → maskBit ws j = true) ∨
    (∃ k, k < 256 ∧ maskBit ws k = false ∧ (∀ j, j < k → maskBit ws j = true) ∧
      mt76_wcid_alloc ws =
        (if k > 247 then -1 else (k : Int),
         ws.set (k / 32) (ws.getD (k / 32) 0 ||| 2 ^ (k % 32)))) := by
  cases haa : allocAux ws with
  | none =>
    left
    constructor
    · unfold mt76_wcid_alloc
      rw [haa]
    · intro j hj
      unfold maskBit
      exact allocAux_none_spec ws haa (j / 32) (by omega) (j % 32) (by omega)
  | some x =>
    obtain ⟨i, b, ws2⟩ := x
    right
    obtain ⟨l1, l2, l3, l4, l5, l6⟩ := allocAux_some_spec ws i b ws2 haa
    have hi8 : i < 8 := hlen ▸ l1
    have hd : (i * 32 + b) / 32 = i := by omega
    have hm : (i * 32 + b) % 32 = b := by omega
    refine ⟨i * 32 + b, by omega, ?_, ?_, ?_⟩
    · unfold maskBit
      rw [hd, hm]
      exact l3
    · intro j hj
      unfold maskBit
      rcases Nat.lt_or_ge (j / 32) i with h | h
      · exact l4 (j / 32) h (j % 32) (by omega)
      · have hji : j / 32 = i := by omega
        rw [hji]
        exact l5 (j % 32) (by omega)
    · unfold mt76_wcid_alloc
      rw [haa]
      rw [hd, hm, ← l6]
      by_cases h247 : i * 32 + b > 247
      · simp [h247]
      · simp [h247]

theorem invHolds_step_alloc {s : AllocState} (hinv : invHolds s) :
    invHolds (stepOp s WcidOp.alloc) := by
  obtain ⟨hlen, hnd, hiff, hbd⟩ := hinv
  rcases alloc_cases hlen with ⟨heq, hfull⟩ | ⟨k, hk, hfree, hmin, heq⟩
  · have hstep : stepOp s WcidOp.alloc = s := by
      simp [stepOp, heq]
    rw [hstep]
    exact ⟨hlen, hnd, hiff, hbd⟩
  · have hk32 : k / 32 < s.mask.length := by omega
    have hb32 : k % 32 < 32 := by omega
    have hkeq : 32 * (k / 32) + k % 32 = k := by omega
    have hmb : ∀ j, maskBit (s.mask.set (k / 32) (s.mask.getD (k / 32) 0 ||| 2 ^ (k % 32))) j
        = (maskBit s.mask j || decide (j = k)) := by
      intro j
      have := @maskBit_set_or s.mask (k / 32) (k % 32) hk32 hb32 j
      rw [hkeq] at this
      exact this
    by_cases h247 : k > 247
    · have hstep : stepOp s WcidOp.alloc
          = { mask := s.mask.set (k / 32) (s.mask.getD (k / 32) 0 ||| 2 ^ (k % 32)),
              owned := s.owned } := by
        simp [stepOp, heq, h247]
      rw [hstep]
      refine ⟨by simp [hlen], hnd, ?_, hbd⟩
      intro j hj
      show j ∈ s.owned
        ↔ maskBit (s.mask.set (k / 32) (s.mask.getD (k / 32) 0 ||| 2 ^ (k % 32))) j = true
      rw [hmb j]
      have hne : ¬(j = k) := by omega
      simpa [hne] using hiff j hj
    · have hstep : stepOp s WcidOp.alloc
          = { mask := s.mask.set (k / 32) (s.mask.getD (k / 32) 0 ||| 2 ^ (k % 32)),
              owned := k :: s.owned } := by
        simp [stepOp, heq, h247]
      rw [hstep]
      have hknotin : k ∉ s.owned := by
        intro hmem
        have := (hiff k (by omega)).mp hmem
        rw [hfree] at this
        exact absurd this (by simp)
      refine ⟨by simp [hlen], List.nodup_cons.mpr ⟨hknotin, hnd⟩, ?_, ?_⟩
      · intro j hj
        show j ∈ k :: s.owned
          ↔ maskBit (s.mask.set (k / 32) (s.mask.getD (k / 32) 0 ||| 2 ^ (k % 32))) j = true
        rw [hmb j, List.mem_cons]
        by_cases hjk : j = k
        · simp [hjk]
        · simpa [hjk] using hiff j hj
      · intro j hj
        rcases List.mem_cons.mp hj with hje | hjm
        · omega
        · exact hbd j hjm

theorem invHolds_step_release {s : AllocState} (hinv : invHolds s) {i : Nat}
    (hmem : i ∈ s.owned) : invHolds (stepOp s (WcidOp.release i)) := by
  obtain ⟨hlen, hnd, hiff, hbd⟩ := hinv
  have hi247 : i ≤ 247 := hbd i hmem
  have hlen2 : i / 32 < s.mask.length := by omega
  refine ⟨?_, ?_, ?_, ?_⟩
  · show (mt76_wcid_release s.mask i).length = 8
    unfold mt76_wcid_release
    rw [List.length_set]
    exact hlen
  · exact List.Nodup.erase i hnd
  · intro j hj
    show j ∈ s.owned.erase i ↔ maskBit (mt76_wcid_release s.mask i) j = true
    rw [maskBit_release hlen2 j, List.Nodup.mem_erase_iff hnd]
    by_cases hji : j = i
    · subst hji
      simp
    · simpa [hji] using hiff j hj
  · intro j hj
    exact hbd j (List.mem_of_mem_erase hj)

theorem invHolds_exec : ∀ (ops : List WcidOp) (s : AllocState),
    invHolds s → validOps s ops = true → invHolds (execOps s ops) := by
  intro ops
  induction ops with
  | nil => intro s h _; exact h
  | cons op t ih =>
    intro s h hv
    cases op with
    | alloc =>
      have hv2 : validOps (stepOp s WcidOp.alloc) t = true := by
        simpa [validOps] using hv
      exact ih (stepOp s WcidOp.alloc) (invHolds_step_alloc h) hv2
    | release i =>
      have hv2 : i ∈ s.owned ∧ validOps (stepOp s (WcidOp.release i)) t = true := by
        simpa [validOps, Bool.and_eq_true, decide_eq_true_eq] using hv
      exact ih (stepOp s (WcidOp.release i)) (invHolds_step_release h hv2.1) hv2.2

theorem invHolds_init : invHolds initState := by decide

/-- C1 (amended): for every valid sequence of allocate/release operations
starting from the empty table, the set of indices returned by allocate
and not yet released equals exactly the set of bits set in positions
0..247 of the allocation bitmap and is a subset of [0,247]; an allocate
call that reports EXHAUSTED leaves bits 0..247 of the bitmap unchanged
(though it may set a bit in the reserved 248..255 range). -/
theorem wcid_allocator_invariant (ops : List WcidOp)
    (hval : validOps initState ops = true) :
    invHolds (execOps initState ops) ∧
    (∀ ws : List Nat, ws.length = 8 → (mt76_wcid_alloc ws).1 = -1 →
      ∀ j, j ≤ 247 → maskBit (mt76_wcid_alloc ws).2 j = maskBit ws j) := by
  constructor
  · exact invHolds_exec ops initState invHolds_init hval
  · intro ws hlen hneg j hj
    rcases alloc_cases hlen with ⟨heq, _⟩ | ⟨k, hk, hfree, hmin, heq⟩
    · rw [heq]
    · rw [heq] at hneg ⊢
      by_cases h247 : k > 247
      · have hk32 : k / 32 < ws.length := by omega
        have hb32 : k % 32 < 32 := by omega
        have hkeq : 32 * (k / 32) + k % 32 = k := by omega
        have hthis := @maskBit_set_or ws (k / 32) (k % 32) hk32 hb32 j
        rw [hkeq] at hthis
        show maskBit (ws.set (k / 32) (ws.getD (k / 32) 0 ||| 2 ^ (k % 32))) j
          = maskBit ws j
        rw [hthis]
        have hne : ¬(j = k) := by omega
        simp [hne]
      · rw [if_neg h247] at hneg
        exact absurd hneg (by simp)

/-- C1 witness: a concrete valid operation sequence for which the
invariant theorem applies. -/
theorem wcid_allocator_invariant_witness :
    validOps initState [WcidOp.alloc, WcidOp.alloc, WcidOp.release 0, WcidOp.alloc] = true ∧
    invHolds (execOps initState [WcidOp.alloc, WcidOp.alloc, WcidOp.release 0, WcidOp.alloc]) :=
  ⟨by decide, (wcid_allocator_invariant
    [WcidOp.alloc, WcidOp.alloc, WcidOp.release 0, WcidOp.alloc] (by decide)).1⟩

/-- C1 counterexample: after the valid sequence of 248 allocations that
fills indices 0..247, a further allocate reports EXHAUSTED (-1) yet does
mutate the bitmap: it sets the reserved bit 248, so the bitmap is not
left unchanged and its set bits no longer coincide with the
returned-and-not-released indices. -/
theorem wcid_alloc_exhausted_mutates_bitmap :
    validOps initState (List.replicate 248 WcidOp.alloc) = true ∧
    (mt76_wcid_alloc (execOps initState (List.replicate 248 WcidOp.alloc)).mask).1 = -1 ∧
    (mt76_wcid_alloc (execOps initState (List.replicate 248 WcidOp.alloc)).mask).2
      ≠ (execOps initState (List.replicate 248 WcidOp.alloc)).mask ∧
    maskBit (mt76_wcid_alloc (execOps initState (List.replicate 248 WcidOp.alloc)).mask).2 248
      = true := by
  refine ⟨by decide, by decide, by decide, by decide⟩

/-- C5: allocation is deterministic and lowest-index-first: whenever the
lowest free bitmap position k is at most 247, mt76_wcid_alloc returns k;
and it reports EXHAUSTED (-1) exactly when every position 0..247 is
already set. -/
theorem wcid_alloc_lowest_first (ws : List Nat) (hlen : ws.length = 8) :
    (∀ k, k ≤ 247 → maskBit ws k = false → (∀ j, j < k → maskBit ws j = true) →
      (mt76_wcid_alloc ws).1 = (k : Int)) ∧
    ((mt76_wcid_alloc ws).1 = -1 ↔ ∀ j, j ≤ 247 → maskBit ws j = true) := by
  rcases alloc_cases hlen with ⟨heq, hfull⟩ | ⟨k0, hk0, hfree0, hmin0, heq⟩
  · constructor
    · intro k hk hfree _
      exact absurd (hfull k (by omega)) (by simp [hfree])
    · rw [heq]
      exact ⟨fun _ j hj => hfull j (by omega), fun _ => rfl⟩
  · constructor
    · intro k hk hfree hmin
      have hkk : k = k0 := by
        rcases Nat.lt_trichotomy k k0 with h | h | h
        · exact absurd (hmin0 k h) (by simp [hfree])
        · exact h
        · exact absurd (hmin k0 h) (by simp [hfree0])
      subst hkk
      rw [heq]
      simp only [if_neg (show ¬(k > 247) by omega)]
    · rw [heq]
      by_cases h247 : k0 > 247
      · rw [if_pos h247]
        refine ⟨fun _ j hj => hmin0 j (by omega), fun _ => rfl⟩
      · rw [if_neg h247]
        constructor
        · intro habs
          have : ¬(((k0 : Nat) : Int) = -1) := by omega
          exact absurd habs this
        · intro hall
          exact absurd (hall k0 (by omega)) (by simp [hfree0])

/-- C5 witness: on a bitmap whose lowest free position is 1, allocate
returns 1. -/
theorem wcid_alloc_lowest_first_witness :
    (mt76_wcid_alloc [1, 0, 0, 0, 0, 0, 0, 0]).1 = (1 : Nat) :=
  (wcid_alloc_lowest_first [1, 0, 0, 0, 0, 0, 0, 0] rfl).1 1
    (by decide) (by decide) (by decide)

theorem add_interface_idx_le (m a : Nat) (st : Bool) :
    (mt76_add_interface m a st).1.idx ≤ 16 := by
  unfold mt76_add_interface
  have h7 : ((m ^^^ a) >>> 2) &&& 7 ≤ 7 := Nat.and_le_right
  by_cases h : a.testBit 1 <;> cases st <;> simp [h] <;> omega

theorem add_interface_group_idx (m a : Nat) (st : Bool) :
    (mt76_add_interface m a st).1.group_wcid.idx
      = 254 - (mt76_add_interface m a st).1.idx := rfl

theorem wcid_alloc_le_247 (ws : List Nat) (h0 : 0 ≤ (mt76_wcid_alloc ws).1) :
    (mt76_wcid_alloc ws).1 ≤ 247 := by
  cases haa : allocAux ws with
  | none =>
    have hneg : (mt76_wcid_alloc ws).1 = -1 := by
      unfold mt76_wcid_alloc; rw [haa]
    omega
  | some x =>
    obtain ⟨i, b, ws2⟩ := x
    by_cases h247 : i * 32 + b > 247
    · have hneg : (mt76_wcid_alloc ws).1 = -1 := by
        unfold mt76_wcid_alloc; rw [haa]; simp [h247]
      omega
    · have hpos : (mt76_wcid_alloc ws).1 = ((i * 32 + b : Nat) : Int) := by
        unfold mt76_wcid_alloc; rw [haa]; simp [h247]
      rw [hpos]
      omega

/-- C4 (amended): every interface gets Group WCID index 254 minus its
interface index, distinct interface indices yield distinct Group WCID
indices, and the per-station allocator only returns indices in [0,247];
but since the interface index can reach 16, the Group WCID index ranges
over [238,254] and avoids the allocator range only when the interface
index is at most 6. -/
theorem group_wcid_assignment (m a : Nat) (st : Bool) :
    (mt76_add_interface m a st).1.group_wcid.idx
      = 254 - (mt76_add_interface m a st).1.idx ∧
    (mt76_add_interface m a st).1.idx ≤ 16 ∧
    238 ≤ (mt76_add_interface m a st).1.group_wcid.idx ∧
    ((mt76_add_interface m a st).1.idx ≤ 6 →
      248 ≤ (mt76_add_interface m a st).1.group_wcid.idx) ∧
    (∀ m2 a2 st2,
      (mt76_add_interface m2 a2 st2).1.idx ≠ (mt76_add_interface m a st).1.idx →
      (mt76_add_interface m2 a2 st2).1.group_wcid.idx
        ≠ (mt76_add_interface m a st).1.group_wcid.idx) ∧
    (∀ ws : List Nat, 0 ≤ (mt76_wcid_alloc ws).1 → (mt76_wcid_alloc ws).1 ≤ 247) := by
  have hle := add_interface_idx_le m a st
  have hg := add_interface_group_idx m a st
  refine ⟨hg, hle, by rw [hg]; omega, ?_, ?_, ?_⟩
  · intro h6
    rw [hg]
    omega
  · intro m2 a2 st2 hne
    rw [hg, add_interface_group_idx m2 a2 st2]
    have hle2 := add_interface_idx_le m2 a2 st2
    omega
  · exact fun ws h => wcid_alloc_le_247 ws h

/-- C4 witness: an AP-role interface with a universally administered
address gets interface idx 0 and Group WCID 254, outside [0,247]. -/
theorem group_wcid_assignment_witness :
    248 ≤ (mt76_add_interface 0 0 false).1.group_wcid.idx :=
  (group_wcid_assignment 0 0 false).2.2.2.1 (by decide)

/-- C4 counterexample: a station-role interface whose address has the
locally-administered bit set and address offset 7 derives interface idx
16, so its Group WCID index is 238, inside the per-station allocator
range: from the reachable bitmap state where indices 0..237 are
allocated, the very next allocate returns 238. -/
theorem group_wcid_collides_with_allocator :
    (mt76_add_interface 0 30 true).1.idx = 16 ∧
    (mt76_add_interface 0 30 true).1.group_wcid.idx = 238 ∧
    validOps initState (List.replicate 238 WcidOp.alloc) = true ∧
    (mt76_wcid_alloc (execOps initState (List.replicate 238 WcidOp.alloc)).mask).1
      = ((238 : Nat) : Int) := by
  refine ⟨by decide, by decide, by decide, by decide⟩

/-- C8: the interface index is derived deterministically from the MAC
address byte and the role exactly as the spec formula states, the
embedded Group WCID slot starts with hw_key_idx = -1, and
mt76_add_interface always returns success (0). -/
theorem add_interface_deterministic (m a : Nat) (st : Bool) :
    (mt76_add_interface m a st).2 = 0 ∧
    (mt76_add_interface m a st).1.idx = specInterfaceIdx m a st ∧
    (mt76_add_interface m a st).1.group_wcid.hw_key_idx = -1 := by
  refine ⟨rfl, ?_, rfl⟩
  unfold mt76_add_interface specInterfaceIdx
  by_cases h : a.testBit 1 <;> cases st <;> simp [h]

theorem set_key_post_state (fW : Nat → Option KeyConf → Int)
    (fS : Nat → Nat → Option KeyConf → Int) (cs : Bool) (mv : Nat)
    (gw : MtWcid) (sta : Option MtWcid) (k0 : KeyConf) :
    (mt76_set_key fW fS cs mv gw sta k0).wcid.idx = (sta.getD gw).idx ∧
    (mt76_set_key fW fS cs mv gw sta k0).wcid.hw_key_idx
      = (if cs then (k0.keyidx : Int)
         else if (sta.getD gw).hw_key_idx = (k0.keyidx : Int) then -1
         else (sta.getD gw).hw_key_idx) ∧
    (mt76_set_key fW fS cs mv gw sta k0).key.keyidx = k0.keyidx ∧
    (mt76_set_key fW fS cs mv gw sta k0).key.hw_key_idx
      = (if cs then (sta.getD gw).idx else k0.hw_key_idx) := by
  cases sta <;> cases cs <;> simp [mt76_set_key] <;> split_ifs <;> simp_all

theorem set_key_group_disable (fW : Nat → Option KeyConf → Int)
    (fS : Nat → Nat → Option KeyConf → Int) (mv : Nat) (gw : MtWcid)
    (k0 : KeyConf) :
    mt76_set_key fW fS false mv gw none k0 =
      { ret := fS mv k0.keyidx none,
        wcid := if gw.hw_key_idx = (k0.keyidx : Int) then { gw with hw_key_idx := -1 }
                else gw,
        key := k0,
        calls := [HwCall.sharedKeySetup mv k0.keyidx none] } := by
  unfold mt76_set_key
  by_cases hm : gw.hw_key_idx = (k0.keyidx : Int)
  · have hne : ¬((-1 : Int) = (k0.keyidx : Int)) := by omega
    simp [hm, hne]
  · simp [hm]

/-- C6: for every WCID slot (station slot or group slot) and every key
index, installing a key sets the slot's hw_key_idx to that key index and
reports the slot's own idx back through the key's hw_key_idx field;
uninstalling a key whose index equals the current hw_key_idx resets
hw_key_idx to -1; uninstalling a key with a different index leaves
hw_key_idx unchanged.  This holds regardless of the hardware oracles'
return values. -/
theorem set_key_state_machine (fW : Nat → Option KeyConf → Int)
    (fS : Nat → Nat → Option KeyConf → Int) (cs : Bool) (mv : Nat)
    (gw : MtWcid) (sta : Option MtWcid) (k0 : KeyConf) :
    (mt76_set_key fW fS cs mv gw sta k0).wcid.idx = (sta.getD gw).idx ∧
    (mt76_set_key fW fS cs mv gw sta k0).wcid.hw_key_idx
      = (if cs then (k0.keyidx : Int)
         else if (sta.getD gw).hw_key_idx = (k0.keyidx : Int) then -1
         else (sta.getD gw).hw_key_idx) ∧
    (mt76_set_key fW fS cs mv gw sta k0).key.hw_key_idx
      = (if cs then (sta.getD gw).idx else k0.hw_key_idx) := by
  obtain ⟨h1, h2, h3, h4⟩ := set_key_post_state fW fS cs mv gw sta k0
  exact ⟨h1, h2, h4⟩

/-- C2 (amended): a key operation that targets no specific station binds
to the interface's Group WCID slot and always reaches the per-interface
shared-key table: an install pushes the key binding there as soon as the
per-WCID hardware apply succeeds, and a removal always clears the
shared-key entry, whether or not the removed index matches the active
hardware key index; the install-or-matching condition instead guards the
per-WCID hardware apply, which for the non-negative key indices mac80211
uses fires exactly on install. -/
theorem set_key_group_calls (fW : Nat → Option KeyConf → Int)
    (fS : Nat → Nat → Option KeyConf → Int) (cs : Bool) (mv : Nat)
    (gw : MtWcid) (k0 : KeyConf) :
    (mt76_set_key fW fS cs mv gw none k0).calls =
      (if cs then
        (if fW gw.idx (some { k0 with hw_key_idx := gw.idx }) = 0 then
          [HwCall.wcidSetKey gw.idx (some { k0 with hw_key_idx := gw.idx }),
           HwCall.sharedKeySetup mv k0.keyidx (some { k0 with hw_key_idx := gw.idx })]
         else [HwCall.wcidSetKey gw.idx (some { k0 with hw_key_idx := gw.idx })])
      else [HwCall.sharedKeySetup mv k0.keyidx none]) := by
  cases cs with
  | false =>
    rw [set_key_group_disable fW fS mv gw k0]
    simp
  | true =>
    by_cases hr : fW gw.idx (some { k0 with hw_key_idx := gw.idx }) = 0
    · simp [mt76_set_key, hr]
    · simp [mt76_set_key, hr]

/-- C2 counterexample: a group-key removal whose index (0) differs from
the slot's active hardware key index (2); the claim says the shared-key
table is not touched in this case, but the code still calls
mt76_mac_shared_key_setup (with a NULL key) on the interface's shared-key
table. -/
theorem set_key_group_removal_touches_shared :
    (mt76_set_key (fun _ _ => 0) (fun _ _ => 0) false 5
      { idx := 254, hw_key_idx := 2 } none { keyidx := 0, hw_key_idx := 99 }).calls
      = [HwCall.sharedKeySetup 5 0 none] := by
  decide

/-- C10: a key-removal request that targets a specific station always
invokes the per-WCID hardware key operation with empty (NULL) key
material, regardless of whether the removed key index matches the slot's
hw_key_idx; only the hw_key_idx field update is conditional on the
match, and the hardware call's return value is surfaced. -/
theorem sta_key_removal_clears_hw (fW : Nat → Option KeyConf → Int)
    (fS : Nat → Nat → Option KeyConf → Int) (mv : Nat) (gw sw : MtWcid)
    (k0 : KeyConf) :
    (mt76_set_key fW fS false mv gw (some sw) k0).calls
      = [HwCall.wcidSetKey sw.idx none] ∧
    (mt76_set_key fW fS false mv gw (some sw) k0).ret = fW sw.idx none ∧
    (mt76_set_key fW fS false mv gw (some sw) k0).wcid.hw_key_idx
      = (if sw.hw_key_idx = (k0.keyidx : Int) then -1 else sw.hw_key_idx) := by
  refine ⟨?_, ?_, ?_⟩
  · simp [mt76_set_key]
  · simp [mt76_set_key]
  · have h := (set_key_post_state fW fS false mv gw (some sw) k0).2.1
    simpa using h

/-- C3 (amended): whenever the per-WCID hardware-apply step performed by
mt76_set_key fails (returns nonzero), the operation aborts before
touching the shared-key table and the error is surfaced to the caller;
however the slot's hw_key_idx does not keep its pre-operation value: it
has already been updated (to the new key index on install, or cleared to
-1 on a matching removal) before the apply ran. -/
theorem set_key_apply_failure (fW : Nat → Option KeyConf → Int)
    (fS : Nat → Nat → Option KeyConf → Int) (cs : Bool) (mv : Nat)
    (gw : MtWcid) (sta : Option MtWcid) (k0 : KeyConf) (w : Nat)
    (karg : Option KeyConf)
    (hmem : HwCall.wcidSetKey w karg ∈ (mt76_set_key fW fS cs mv gw sta k0).calls)
    (hf : fW w karg ≠ 0) :
    (mt76_set_key fW fS cs mv gw sta k0).ret = fW w karg ∧
    (∀ v i kk, HwCall.sharedKeySetup v i kk
      ∉ (mt76_set_key fW fS cs mv gw sta k0).calls) ∧
    (mt76_set_key fW fS cs mv gw sta k0).wcid.hw_key_idx
      = (if cs then (k0.keyidx : Int)
         else if (sta.getD gw).hw_key_idx = (k0.keyidx : Int) then -1
         else (sta.getD gw).hw_key_idx) := by
  have hpost := (set_key_post_state fW fS cs mv gw sta k0).2.1
  cases sta with
  | some sw =>
    have hcalls : (mt76_set_key fW fS cs mv gw (some sw) k0).calls
        = [HwCall.wcidSetKey sw.idx
            (if cs then some { k0 with hw_key_idx := sw.idx } else none)] := by
      cases cs <;> simp [mt76_set_key]
    have hret : (mt76_set_key fW fS cs mv gw (some sw) k0).ret
        = fW sw.idx (if cs then some { k0 with hw_key_idx := sw.idx } else none) := by
      cases cs <;> simp [mt76_set_key]
    rw [hcalls] at hmem
    simp only [List.mem_singleton] at hmem
    injection hmem with hw1 hk1
    refine ⟨?_, ?_, hpost⟩
    · rw [hw1, hk1]
      exact hret
    · intro v i kk hmem2
      rw [hcalls] at hmem2
      simp at hmem2
  | none =>
    cases cs with
    | false =>
      rw [set_key_group_disable fW fS mv gw k0] at hmem
      simp at hmem
    | true =>
      by_cases hr : fW gw.idx (some { k0 with hw_key_idx := gw.idx }) = 0
      · have hcalls : (mt76_set_key fW fS true mv gw none k0).calls
            = [HwCall.wcidSetKey gw.idx (some { k0 with hw_key_idx := gw.idx }),
               HwCall.sharedKeySetup mv k0.keyidx
                 (some { k0 with hw_key_idx := gw.idx })] := by
          simp [mt76_set_key, hr]
        rw [hcalls] at hmem
        simp only [List.mem_cons, List.mem_singleton, List.not_mem_nil, or_false] at hmem
        rcases hmem with hmem | hmem
        · injection hmem with hw1 hk1
          rw [hw1, hk1] at hf
          exact absurd hr hf
        · exact absurd hmem (by simp)
      · have hcalls : (mt76_set_key fW fS true mv gw none k0).calls
            = [HwCall.wcidSetKey gw.idx (some { k0 with hw_key_idx := gw.idx })] := by
          simp [mt76_set_key, hr]
        have hret : (mt76_set_key fW fS true mv gw none k0).ret
            = fW gw.idx (some { k0 with hw_key_idx := gw.idx }) := by
          simp [mt76_set_key, hr]
        rw [hcalls] at hmem
        simp only [List.mem_singleton] at hmem
        injection hmem with hw1 hk1
        refine ⟨?_, ?_, hpost⟩
        · rw [hw1, hk1]
          exact hret
        · intro v i kk hmem2
          rw [hcalls] at hmem2
          simp at hmem2

/-- C3 witness: a concrete failing install on a group slot, to which the
amended theorem applies: the error -5 is surfaced and the shared-key
table is never called. -/
theorem set_key_apply_failure_witness :
    (mt76_set_key (fun _ _ => (-5 : Int)) (fun _ _ => 0) true 5
      { idx := 254, hw_key_idx := -1 } none { keyidx := 0, hw_key_idx := 99 }).ret = -5 ∧
    (∀ v i kk, HwCall.sharedKeySetup v i kk
      ∉ (mt76_set_key (fun _ _ => (-5 : Int)) (fun _ _ => 0) true 5
          { idx := 254, hw_key_idx := -1 } none { keyidx := 0, hw_key_idx := 99 }).calls) := by
  have h := set_key_apply_failure (fun _ _ => (-5 : Int)) (fun _ _ => 0) true 5
    { idx := 254, hw_key_idx := -1 } none { keyidx := 0, hw_key_idx := 99 } 254
    (some { keyidx := 0, hw_key_idx := 254 }) (by decide) (by decide)
  exact ⟨h.1, h.2.1⟩

/-- C3 counterexample: an install on a group slot whose pre-operation
hw_key_idx is -1; the hardware apply fails with -5 and the error is
surfaced, yet the slot's hw_key_idx now reads 0 (the new key index)
rather than its pre-operation value -1, so partial state was committed
despite the failure. -/
theorem set_key_failure_commits_hw_key_idx :
    (mt76_set_key (fun _ _ => (-5 : Int)) (fun _ _ => 0) true 5
      { idx := 254, hw_key_idx := -1 } none { keyidx := 0, hw_key_idx := 99 }).ret = -5 ∧
    (mt76_set_key (fun _ _ => (-5 : Int)) (fun _ _ => 0) true 5
      { idx := 254, hw_key_idx := -1 } none { keyidx := 0, hw_key_idx := 99 }).wcid.hw_key_idx
      = 0 ∧
    ¬((mt76_set_key (fun _ _ => (-5 : Int)) (fun _ _ => 0) true 5
      { idx := 254, hw_key_idx := -1 } none { keyidx := 0, hw_key_idx := 99 }).wcid.hw_key_idx
      = -1) := by
  refine ⟨by decide, by decide, by decide⟩

/-- C7: an inbound frame is handed to the upward delivery point exactly
when the device is in the RUNNING state; otherwise its buffer is freed
(reclaimed, never queued and never delivered). -/
theorem rx_gated_on_running (running : Bool) (skb : Nat) :
    (mt76_rx running skb = RxAction.deliver skb ↔ running = true) ∧
    (mt76_rx running skb = RxAction.free skb ↔ running = false) := by
  cases running <;> simp [mt76_rx]

/-- C7 witness: with the RUNNING bit clear, a concrete frame is freed,
not delivered. -/
theorem rx_gated_on_running_witness :
    mt76_rx false 7 = RxAction.free 7 :=
  (rx_gated_on_running false 7).2.mpr rfl

/-- C9 (amended): only the beacon-enable register update runs with the
pre-TBTT tasklet paused: it is immediately preceded by a tasklet disable
and immediately followed by a tasklet enable; a BSSID-only change
performs its register update without disabling the tasklet at all. -/
theorem beacon_enable_update_bracketed (mv bi : Nat) (en ss : Bool)
    (changed : Nat) :
    beaconUpdatesBracketed (mt76_bss_info_changed mv bi en ss changed) = true ∧
    mt76_bss_info_changed mv bi en ss BSS_CHANGED_BSSID = [BssEvent.setBssid mv] := by
  constructor
  · unfold mt76_bss_info_changed
    by_cases h1 : changed &&& BSS_CHANGED_BSSID ≠ 0 <;>
      by_cases h2 : changed &&& BSS_CHANGED_BEACON_INT ≠ 0 <;>
        by_cases h3 : changed &&& BSS_CHANGED_BEACON_ENABLED ≠ 0 <;>
          by_cases h4 : changed &&& BSS_CHANGED_ERP_SLOT ≠ 0 <;>
            simp [h1, h2, h3, h4, beaconUpdatesBracketed]
  · have e1 : (128 : Nat) &&& 128 ≠ 0 := by decide
    have e2 : (128 : Nat) &&& 64 = 0 := by decide
    have e3 : (128 : Nat) &&& 512 = 0 := by decide
    have e4 : (128 : Nat) &&& 8 = 0 := by decide
    simp [mt76_bss_info_changed, BSS_CHANGED_BSSID, BSS_CHANGED_BEACON_INT,
      BSS_CHANGED_BEACON_ENABLED, BSS_CHANGED_ERP_SLOT, e1, e2, e3, e4]

/-- C9 counterexample: a configuration change touching only the BSSID
register performs the BSSID update while the pre-TBTT tasklet is never
disabled during the whole call, contradicting the claim that the tasklet
is paused for the duration of BSSID register updates. -/
theorem bssid_update_without_tasklet_pause :
    mt76_bss_info_changed 3 100 true false BSS_CHANGED_BSSID
      = [BssEvent.setBssid 3] ∧
    BssEvent.taskletDisable ∉ mt76_bss_info_changed 3 100 true false BSS_CHANGED_BSSID := by
  refine ⟨by decide, by decide⟩
